import Mathlib

/-!
Verification development for the exam-question generation pipeline
(`geminiService` / `externalSearch` modules of the acemock repository).

Strings are modelled as `List Char` (JS strings are sequences of UTF-16 code
units; every string appearing in the pipeline and in the claims lies in the
Basic Multilingual Plane, where code units and Unicode scalar values coincide,
so `Char` is a faithful carrier).  Asynchronous code is modelled by explicit
outcome values (`Except`) and, where the order of emitted log events matters,
by explicitly constructed event traces.  The retry delay arithmetic
(`delay * 1.5`) is modelled over `ℚ`; for the values reachable from the
pipeline's integer initial delays the JS float computation is exact, so the
rational model agrees with the source.
-/

namespace AceMock

/-! ## Character classes -/

/-- Membership in the ECMAScript `\s` class (also the set removed by
`String.prototype.trim`): whitespace and line terminators
(space, tab, LF, VT, FF, CR, NBSP, U+1680, U+2000..U+200A, U+2028, U+2029,
U+202F, U+205F, U+3000, U+FEFF).  Stated over `c.val.toNat` so that
arithmetic automation applies. -/
def isJsWs (c : Char) : Bool :=
  let n := c.val.toNat
  n = 32 || n = 9 || n = 10 || n = 11 || n = 12 || n = 13 ||
  n = 0xa0 || n = 0x1680 || (0x2000 ≤ n && n ≤ 0x200a) ||
  n = 0x2028 || n = 0x2029 || n = 0x202f || n = 0x205f ||
  n = 0x3000 || n = 0xfeff

/-- ASCII digit, the `\d` class (U+0030..U+0039). -/
def isDigit (c : Char) : Bool :=
  48 ≤ c.val.toNat && c.val.toNat ≤ 57

/-- Characters kept by the fingerprint regex
`/[^一-龥a-zA-Z0-9]/g` (line 452): CJK ideographs in
U+4E00..U+9FA5 and ASCII alphanumerics. -/
def isFpKept (c : Char) : Bool :=
  let n := c.val.toNat
  (0x4e00 ≤ n && n ≤ 0x9fa5) ||
  (97 ≤ n && n ≤ 122) || (65 ≤ n && n ≤ 90) || isDigit c

/-- Lower-casing of ASCII letters, used to model the `/i` regex flag
(no non-ASCII character in the relevant patterns has a case mapping). -/
def asciiLower (c : Char) : Char :=
  if 65 ≤ c.val.toNat && c.val.toNat ≤ 90 then Char.ofNat (c.val.toNat + 32)
  else c

/-- JS whitespace never survives the fingerprint filter: the two character
classes are disjoint. -/
theorem isFpKept_of_isJsWs (c : Char) (h : isJsWs c = true) :
    isFpKept c = false := by
  simp only [isJsWs, isFpKept, isDigit, Bool.or_eq_true, decide_eq_true_eq,
    Bool.and_eq_true] at h
  simp only [isFpKept, isDigit, Bool.or_eq_false_iff, Bool.and_eq_false_iff,
    decide_eq_false_iff_not, Bool.and_eq_true, decide_eq_true_eq]
  omega

/-! ## JS string helpers -/

/-- Leading-whitespace removal half of `String.prototype.trim`. -/
def trimStart (cs : List Char) : List Char := cs.dropWhile isJsWs

/-- Trailing-whitespace removal half of `String.prototype.trim`. -/
def trimEnd (cs : List Char) : List Char :=
  (cs.reverse.dropWhile isJsWs).reverse

/-- `String.prototype.trim`: strip JS whitespace from both ends. -/
def jsTrim (cs : List Char) : List Char := trimEnd (trimStart cs)

/-- The fingerprint of line 452:
`questionText.replace(/[^一-龥a-zA-Z0-9]/g, '')`. -/
def fingerprint (cs : List Char) : List Char := cs.filter isFpKept

/-! ## Shard planner (lines 364-371)

```
const batchCounts: number[] = [];
let remaining = count;
while (remaining > 0) {
    const currentBatch = Math.min(remaining, userBatchSize);
    batchCounts.push(currentBatch);
    remaining -= currentBatch;
}
```

For `shardSize = 0` and `remaining > 0` the JS loop never terminates; that
configuration is unreachable for the claims under study (they assume
`shardSize ≥ 1`), and the model returns `[]` there so as to stay total. -/

def buildBatchCounts (remaining shardSize : Nat) : List Nat :=
  if _h : remaining = 0 then []
  else if _h2 : shardSize = 0 then []
  else
    let currentBatch := min remaining shardSize
    currentBatch :: buildBatchCounts (remaining - currentBatch) shardSize
termination_by remaining
decreasing_by
  omega

theorem buildBatchCounts_sum (remaining shardSize : Nat) (hs : 1 ≤ shardSize) :
    (buildBatchCounts remaining shardSize).sum = remaining := by
  induction remaining using Nat.strong_induction_on with
  | _ r ih =>
    rw [buildBatchCounts.eq_def]
    by_cases hr : r = 0
    · simp [hr]
    · have hs0 : ¬ shardSize = 0 := by omega
      simp only [hr, hs0, dite_false, List.sum_cons]
      rw [ih (r - min r shardSize) (by omega)]
      omega

theorem buildBatchCounts_length (remaining shardSize : Nat) (hs : 1 ≤ shardSize) :
    (buildBatchCounts remaining shardSize).length =
      (remaining + shardSize - 1) / shardSize := by
  induction remaining using Nat.strong_induction_on with
  | _ r ih =>
    rw [buildBatchCounts.eq_def]
    by_cases hr : r = 0
    · subst hr
      simp only [dite_true, List.length_nil, Nat.zero_add]
      exact (Nat.div_eq_of_lt (by omega)).symm
    · have hs0 : ¬ shardSize = 0 := by omega
      simp only [hr, hs0, dite_false, List.length_cons]
      rw [ih (r - min r shardSize) (by omega)]
      rcases Nat.le_total r shardSize with h | h
      · have hmin : r - min r shardSize = 0 := by omega
        rw [hmin]
        have h1 : (0 + shardSize - 1) / shardSize = 0 :=
          Nat.div_eq_of_lt (by omega)
        have e2 : r + shardSize - 1 = (r - 1) + 1 * shardSize := by omega
        have h2 : (r + shardSize - 1) / shardSize = 1 := by
          rw [e2, Nat.add_mul_div_right _ _ (by omega),
            Nat.div_eq_of_lt (by omega)]
        omega
      · have hmin : r - min r shardSize = r - shardSize := by omega
        have e1 : r - shardSize + shardSize - 1 = r - 1 := by omega
        have e2 : r + shardSize - 1 = (r - 1) + 1 * shardSize := by omega
        rw [hmin, e1, e2, Nat.add_mul_div_right _ _ (by omega)]

theorem buildBatchCounts_example : buildBatchCounts 25 10 = [10, 10, 5] := by
  simp [buildBatchCounts.eq_def]

theorem buildBatchCounts_mem (remaining shardSize : Nat) (hs : 1 ≤ shardSize)
    (x : Nat) (hx : x ∈ buildBatchCounts remaining shardSize) :
    1 ≤ x ∧ x ≤ shardSize := by
  induction remaining using Nat.strong_induction_on with
  | _ r ih =>
    rw [buildBatchCounts.eq_def] at hx
    by_cases hr : r = 0
    · simp [hr] at hx
    · have hs0 : ¬ shardSize = 0 := by omega
      simp only [hr, hs0, dite_false, List.mem_cons] at hx
      rcases hx with hx | hx
      · omega
      · exact ih (r - min r shardSize) (by omega) hx

/-! ## Text cleaner (`cleanQuestionPrefix`, lines 320-335)

The cleaner applies four anchored regex replacements in order and trims.
Each regex is modelled by a function returning `some rest` (the unmatched
remainder when the pattern matches at the start of the string) or `none`.
The models follow ECMAScript matching semantics: alternation tries branches
left to right with full continuation backtracking, `?` greedily tries the
consumed alternative first, and `*`/`+` are greedy.  For the patterns below
maximal munch needs no backtracking inside `\s*`, `\d+` and the trailing
character classes, because no character can belong both to such a class and
to the single character class that follows it; the only live backtracking
points are the label alternation and the optional closing bracket, which are
modelled explicitly. -/

/-- Case-insensitive character comparison, modelling the `/i` flag (only
ASCII letters have case mappings among the characters in the patterns). -/
def charMatchCI (p c : Char) : Bool := asciiLower p = asciiLower c

/-- Match a literal pattern case-insensitively; returns the remainder. -/
def matchLitCI : List Char → List Char → Option (List Char)
  | [], cs => some cs
  | _ :: _, [] => none
  | p :: ps, c :: cs => if charMatchCI p c then matchLitCI ps cs else none

/-- Regex alternation over a list of literal labels, with continuation `k`:
try each label in order, and on a label match require `k` to succeed on the
remainder, otherwise backtrack to the next label. -/
def firstAlt (k : List Char → Option (List Char)) :
    List (List Char) → List Char → Option (List Char)
  | [], _ => none
  | l :: ls, cs =>
    match matchLitCI l cs with
    | some rest =>
      match k rest with
      | some r => some r
      | none => firstAlt k ls cs
    | none => firstAlt k ls cs

/-- The separator class `[\s\.\:\：\-、]` of the labelled-numeric regex
(line 325). -/
def isR1Sep (c : Char) : Bool :=
  isJsWs c || c = '.' || c = ':' || c = '：' || c = '-' || c = '、'

/-- Continuation of the line-325 regex after its label:
`\s*\d+[\s\.\:\：\-、]*\s*`. -/
def matchR1Tail (cs : List Char) : Option (List Char) :=
  match cs.dropWhile isJsWs with
  | c :: rest =>
    if isDigit c then
      some (((rest.dropWhile isDigit).dropWhile isR1Sep).dropWhile isJsWs)
    else none
  | [] => none

/-- Line 325:
`replace(/^(Q|Question|题目|问题|Case|案例|习题)\s*\d+[\s\.\:\：\-、]*\s*​/i, '')`,
returning the remainder on a match. -/
def matchR1 (cs : List Char) : Option (List Char) :=
  firstAlt matchR1Tail
    ["Q".data, "Question".data, "题目".data, "问题".data,
     "Case".data, "案例".data, "习题".data] cs

/-- Opening-bracket class `[\(【\[]` of the line-328 regex. -/
def isR2Open (c : Char) : Bool := c = '(' || c = '【' || c = '['

/-- Closing-bracket class `[\)\]】]` of the line-328 regex. -/
def isR2Close (c : Char) : Bool := c = ')' || c = ']' || c = '】'

/-- Separator class `[、\.\．\:\：\)\-、]` of the line-328 regex
(`、` = U+3001 is listed twice in the source class). -/
def isR2Sep (c : Char) : Bool :=
  c = '、' || c = '.' || c = '．' || c = ':' || c = '：' || c = ')' || c = '-'

/-- Tail `\s*[、\.\．\:\：\)\-、]\s*` of the line-328 regex. -/
def matchR2SepTail (cs : List Char) : Option (List Char) :=
  match cs.dropWhile isJsWs with
  | c :: rest => if isR2Sep c then some (rest.dropWhile isJsWs) else none
  | [] => none

/-- Part `\d+[\)\]】]?\s*[sep]\s*` of the line-328 regex; the optional
closing bracket greedily tries the consumed alternative first and
backtracks on failure of the tail. -/
def matchR2Digits (cs : List Char) : Option (List Char) :=
  match cs with
  | c :: rest =>
    if isDigit c then
      let csD := rest.dropWhile isDigit
      match csD with
      | c2 :: r2 =>
        if isR2Close c2 then
          match matchR2SepTail r2 with
          | some r => some r
          | none => matchR2SepTail csD
        else matchR2SepTail csD
      | [] => matchR2SepTail csD
    else none
  | [] => none

/-- Line 328:
`replace(/^[\(【\[]?\d+[\)\]】]?\s*[、\.\．\:\：\)\-、]\s*​/, '')`;
the optional opening bracket backtracks like the closing one. -/
def matchR2 (cs : List Char) : Option (List Char) :=
  match cs with
  | c :: rest =>
    if isR2Open c then
      match matchR2Digits rest with
      | some r => some r
      | none => matchR2Digits cs
    else matchR2Digits cs
  | [] => none

/-- Line 329: `replace(/^①\s*​/, '')`. -/
def matchCircled (cs : List Char) : Option (List Char) :=
  match cs with
  | c :: rest => if c = '①' then some (rest.dropWhile isJsWs) else none
  | [] => none

/-- Tail `[:：]\s*` of the line-332 regex. -/
def matchR4Tail (cs : List Char) : Option (List Char) :=
  match cs with
  | c :: rest =>
    if c = ':' || c = '：' then some (rest.dropWhile isJsWs) else none
  | [] => none

/-- Line 332: `replace(/^(题目|问题|Question)[:：]\s*​/i, '')`. -/
def matchR4 (cs : List Char) : Option (List Char) :=
  firstAlt matchR4Tail ["题目".data, "问题".data, "Question".data] cs

/-- An anchored `replace(re, '')`: drop the matched part when the regex
matches at the start, otherwise leave the string unchanged. -/
def stripMatch (m : List Char → Option (List Char)) (cs : List Char) :
    List Char :=
  (m cs).getD cs

/-- The cleaner `cleanQuestionPrefix` of lines 320-335: trim, strip the
labelled numeric pattern, the bracketed numeric pattern, the circled digit,
the bare label pattern, and trim again. -/
def cleanQuestionPfx (text : List Char) : List Char :=
  jsTrim (stripMatch matchR4 (stripMatch matchCircled
    (stripMatch matchR2 (stripMatch matchR1 (jsTrim text)))))

/-! ### Structural facts about the cleaner

Every regex replacement either leaves the string unchanged or drops a
prefix, and the end trim drops only whitespace; hence (proved below) the
fingerprint of a cleaned string is always a suffix of the fingerprint of
the original. -/

theorem matchLitCI_suffix :
    ∀ p cs r, matchLitCI p cs = some r → r <:+ cs := by
  intro p
  induction p with
  | nil =>
    intro cs r h
    simp only [matchLitCI, Option.some.injEq] at h
    exact h ▸ List.suffix_refl cs
  | cons x xs ih =>
    intro cs r h
    cases cs with
    | nil => simp [matchLitCI] at h
    | cons c cs2 =>
      simp only [matchLitCI] at h
      by_cases hc : charMatchCI x c = true
      · simp only [hc, if_true] at h
        exact (ih cs2 r h).trans (List.suffix_cons c cs2)
      · simp [hc] at h

theorem matchR1Tail_suffix (cs r : List Char) (h : matchR1Tail cs = some r) :
    r <:+ cs := by
  unfold matchR1Tail at h
  cases hd : cs.dropWhile isJsWs with
  | nil => rw [hd] at h; exact absurd h (by simp)
  | cons c rest =>
    rw [hd] at h
    by_cases hc : isDigit c = true
    · simp only [hc, if_true, Option.some.injEq] at h
      subst h
      refine ((((List.dropWhile_suffix _).trans
        (List.dropWhile_suffix _)).trans (List.dropWhile_suffix _)).trans
        ((List.suffix_cons c rest).trans ?_))
      rw [← hd]
      exact List.dropWhile_suffix _
    · simp [hc] at h

theorem firstAlt_suffix (k : List Char → Option (List Char))
    (hk : ∀ cs r, k cs = some r → r <:+ cs) :
    ∀ ls cs r, firstAlt k ls cs = some r → r <:+ cs := by
  intro ls
  induction ls with
  | nil => intro cs r h; simp [firstAlt] at h
  | cons l ls2 ih =>
    intro cs r h
    simp only [firstAlt] at h
    cases hm : matchLitCI l cs with
    | none => simp only [hm] at h; exact ih cs r h
    | some rest =>
      simp only [hm] at h
      cases hk2 : k rest with
      | none => simp only [hk2] at h; exact ih cs r h
      | some r2 =>
        simp only [hk2, Option.some.injEq] at h
        subst h
        exact (hk rest r2 hk2).trans (matchLitCI_suffix l cs rest hm)

theorem matchR1_suffix (cs r : List Char) (h : matchR1 cs = some r) :
    r <:+ cs :=
  firstAlt_suffix matchR1Tail matchR1Tail_suffix _ cs r h

theorem matchR2SepTail_suffix (cs r : List Char)
    (h : matchR2SepTail cs = some r) : r <:+ cs := by
  unfold matchR2SepTail at h
  cases hd : cs.dropWhile isJsWs with
  | nil => rw [hd] at h; exact absurd h (by simp)
  | cons c rest =>
    rw [hd] at h
    by_cases hc : isR2Sep c = true
    · simp only [hc, if_true, Option.some.injEq] at h
      subst h
      refine (List.dropWhile_suffix _).trans
        ((List.suffix_cons c rest).trans ?_)
      rw [← hd]
      exact List.dropWhile_suffix _
    · simp [hc] at h

theorem matchR2Digits_suffix (cs r : List Char)
    (h : matchR2Digits cs = some r) : r <:+ cs := by
  unfold matchR2Digits at h
  cases cs with
  | nil => exact absurd h (by simp)
  | cons c rest =>
    by_cases hc : isDigit c = true
    · simp only [hc, if_true] at h
      have hsufD : rest.dropWhile isDigit <:+ c :: rest :=
        (List.dropWhile_suffix _).trans (List.suffix_cons c rest)
      cases hD : rest.dropWhile isDigit with
      | nil =>
        rw [hD] at h
        exact (matchR2SepTail_suffix _ _ h).trans (hD ▸ hsufD)
      | cons c2 r2 =>
        rw [hD] at h
        by_cases hc2 : isR2Close c2 = true
        · simp only [hc2, if_true] at h
          cases hst : matchR2SepTail r2 with
          | some r3 =>
            rw [hst] at h
            simp only [Option.some.injEq] at h
            subst h
            exact ((matchR2SepTail_suffix _ _ hst).trans
              (List.suffix_cons c2 r2)).trans (hD ▸ hsufD)
          | none =>
            rw [hst] at h
            exact (matchR2SepTail_suffix _ _ h).trans (hD ▸ hsufD)
        · simp only [hc2, if_false, Bool.false_eq_true] at h
          exact (matchR2SepTail_suffix _ _ h).trans (hD ▸ hsufD)
    · simp [hc] at h

theorem matchR2_suffix (cs r : List Char) (h : matchR2 cs = some r) :
    r <:+ cs := by
  unfold matchR2 at h
  cases cs with
  | nil => exact absurd h (by simp)
  | cons c rest =>
    by_cases hc : isR2Open c = true
    · simp only [hc, if_true] at h
      cases hd : matchR2Digits rest with
      | some r2 =>
        rw [hd] at h
        simp only [Option.some.injEq] at h
        subst h
        exact (matchR2Digits_suffix rest r2 hd).trans (List.suffix_cons c rest)
      | none =>
        rw [hd] at h
        exact matchR2Digits_suffix _ _ h
    · simp only [hc, if_false, Bool.false_eq_true] at h
      exact matchR2Digits_suffix _ _ h

theorem matchCircled_suffix (cs r : List Char) (h : matchCircled cs = some r) :
    r <:+ cs := by
  unfold matchCircled at h
  cases cs with
  | nil => exact absurd h (by simp)
  | cons c rest =>
    by_cases hc : c = '①'
    · simp only [hc, if_true, Option.some.injEq] at h
      subst h
      exact (List.dropWhile_suffix _).trans (List.suffix_cons _ rest)
    · simp [hc] at h

theorem matchR4Tail_suffix (cs r : List Char) (h : matchR4Tail cs = some r) :
    r <:+ cs := by
  unfold matchR4Tail at h
  cases cs with
  | nil => exact absurd h (by simp)
  | cons c rest =>
    by_cases hc : (c = ':' || c = '：') = true
    · simp only [hc, if_true, Option.some.injEq] at h
      subst h
      exact (List.dropWhile_suffix _).trans (List.suffix_cons c rest)
    · simp [hc] at h

theorem matchR4_suffix (cs r : List Char) (h : matchR4 cs = some r) :
    r <:+ cs :=
  firstAlt_suffix matchR4Tail matchR4Tail_suffix _ cs r h

theorem stripMatch_suffix (m : List Char → Option (List Char))
    (hm : ∀ cs r, m cs = some r → r <:+ cs) (cs : List Char) :
    stripMatch m cs <:+ cs := by
  unfold stripMatch
  cases h : m cs with
  | none => exact List.suffix_refl cs
  | some r => exact hm cs r h

theorem fingerprint_trimEnd (cs : List Char) :
    fingerprint (trimEnd cs) = fingerprint cs := by
  conv_rhs => rw [show cs = ((cs.reverse.takeWhile isJsWs) ++
    (cs.reverse.dropWhile isJsWs)).reverse from by
      rw [List.takeWhile_append_dropWhile, List.reverse_reverse]]
  unfold trimEnd fingerprint
  rw [List.reverse_append, List.filter_append]
  have hnil : (cs.reverse.takeWhile isJsWs).reverse.filter isFpKept = [] := by
    rw [List.filter_eq_nil_iff]
    intro a ha
    rw [List.mem_reverse] at ha
    simp only [isFpKept_of_isJsWs a (List.mem_takeWhile_imp ha),
      Bool.false_eq_true, not_false_eq_true]
  rw [hnil, List.append_nil]

theorem fingerprint_jsTrim_suffix (cs : List Char) :
    fingerprint (jsTrim cs) <:+ fingerprint cs := by
  unfold jsTrim
  rw [fingerprint_trimEnd]
  exact (List.dropWhile_suffix isJsWs).filter isFpKept

theorem fingerprint_clean_suffix (cs : List Char) :
    fingerprint (cleanQuestionPfx cs) <:+ fingerprint cs := by
  unfold cleanQuestionPfx
  refine (fingerprint_jsTrim_suffix _).trans ?_
  refine ((stripMatch_suffix _ matchR4_suffix _).filter isFpKept).trans ?_
  refine ((stripMatch_suffix _ matchCircled_suffix _).filter isFpKept).trans ?_
  refine ((stripMatch_suffix _ matchR2_suffix _).filter isFpKept).trans ?_
  refine ((stripMatch_suffix _ matchR1_suffix _).filter isFpKept).trans ?_
  exact fingerprint_jsTrim_suffix cs

/-- C6 counterexample: the claim asserts that the cleaner maps `（2）示例`
(with fullwidth parentheses U+FF08/U+FF09) to `示例`, but the bracket
classes of the line-328 regex contain only `(`, `【`, `[` and `)`, `]`,
`】`, so the string is left unchanged — and it differs from `示例`. -/
theorem clean_fullwidth_cex :
    cleanQuestionPfx "（2）示例".data = "（2）示例".data ∧
    "（2）示例".data ≠ "示例".data := by
  constructor
  · decide
  · decide

/-- C6 (amended): the cleaner maps `1. What is X?` to `What is X?` and
`Q3: test` to `test`; ASCII-parenthesized numeric heads are stripped
(`(2)示例` to `示例`), but fullwidth-parenthesized heads such as `（2）示例`
are not stripped and remain unchanged. -/
theorem clean_examples :
    cleanQuestionPfx "1. What is X?".data = "What is X?".data ∧
    cleanQuestionPfx "Q3: test".data = "test".data ∧
    cleanQuestionPfx "(2)示例".data = "示例".data ∧
    cleanQuestionPfx "（2）示例".data = "（2）示例".data := by
  refine ⟨by decide, by decide, by decide, by decide⟩

/-- C7 counterexample: the cleaner is not idempotent, and the fingerprint
can see the difference.  For `题目: 1. foo` the first pass strips only the
bare label (the numeric pattern runs before the label pattern, so the
residual `1. ` survives), the second pass then strips `1. `; hence
`fingerprint(clean(q))` is `1foo` while `fingerprint(clean(clean(q)))` is
`foo`. -/
theorem fingerprint_clean_idem_cex :
    fingerprint (cleanQuestionPfx "题目: 1. foo".data) ≠
      fingerprint (cleanQuestionPfx (cleanQuestionPfx "题目: 1. foo".data)) := by
  decide

/-- C7 (amended): a second cleaning pass never changes the fingerprint
except by removing further leading material — the fingerprint after two
passes is always a suffix of the fingerprint after one pass (equality can
fail, as the counterexample shows). -/
theorem fingerprint_clean_clean_suffix (q : List Char) :
    fingerprint (cleanQuestionPfx (cleanQuestionPfx q)) <:+
      fingerprint (cleanQuestionPfx q) :=
  fingerprint_clean_suffix (cleanQuestionPfx q)

/-- C2: for every `count ≥ 1` and `shardSize ≥ 1`, the shard plan built by
repeatedly emitting `min(remaining, shardSize)` sums to `count`, has length
`ceil(count / shardSize)` (written in natural-number arithmetic as
`(count + shardSize - 1) / shardSize`), and every element lies in
`[1, shardSize]`; in particular `count = 25`, `shardSize = 10` yields the
plan `[10, 10, 5]`. -/
theorem shard_plan_invariants (count shardSize : Nat)
    (hc : 1 ≤ count) (hs : 1 ≤ shardSize) :
    (buildBatchCounts count shardSize).sum = count ∧
    (buildBatchCounts count shardSize).length =
      (count + shardSize - 1) / shardSize ∧
    (∀ x ∈ buildBatchCounts count shardSize, 1 ≤ x ∧ x ≤ shardSize) ∧
    buildBatchCounts 25 10 = [10, 10, 5] :=
  ⟨buildBatchCounts_sum count shardSize hs,
   buildBatchCounts_length count shardSize hs,
   fun x hx => buildBatchCounts_mem count shardSize hs x hx,
   buildBatchCounts_example⟩

/-- Witness for `shard_plan_invariants` at the concrete input
`count = 25`, `shardSize = 10`. -/
theorem shard_plan_invariants_witness :
    (buildBatchCounts 25 10).sum = 25 ∧
    (buildBatchCounts 25 10).length = (25 + 10 - 1) / 10 ∧
    (∀ x ∈ buildBatchCounts 25 10, 1 ≤ x ∧ x ≤ 10) ∧
    buildBatchCounts 25 10 = [10, 10, 5] :=
  shard_plan_invariants 25 10 (by decide) (by decide)

/-! ## Data model -/

/-- The closed `QuestionType` enumeration of the schema (lines 175-186). -/
inductive QuestionType where
  | SINGLE_CHOICE
  | MULTI_CHOICE
  | TRUE_FALSE
  | MATCHING
  | ORDERING
  | FILL_IN_BLANK
  | SHORT_ANSWER
  | NOUN_EXPLANATION
  | ANALYSIS
  | FLASHCARD
deriving DecidableEq

/-- JS values flowing through `JSON.parse` and the answer normalizer.
Numbers carry their source lexeme: the numeric value of a parsed number is
never inspected by the pipeline, and JS float semantics is outside the
model. -/
inductive JsValue where
  | null
  | bool (b : Bool)
  | num (lexeme : List Char)
  | str (s : List Char)
  | arr (elems : List JsValue)
  | obj (members : List (List Char × JsValue))

/-- The `Question` record produced by `generateBatchQuestions`
(lines 305-312).  `correctAnswer` is whatever JS value the normalizer
produced (`string | string[]` in the intended shape, but see C3). -/
structure Question where
  id : List Char
  qtype : QuestionType
  questionText : List Char
  options : List (List Char)
  correctAnswer : JsValue
  explanation : List Char

/-! ## Fingerprint deduplicator (lines 438-495) -/

/-- The fuzzy-match length floor `MIN_LEN_FOR_FUZZY` (line 469). -/
def MIN_LEN_FOR_FUZZY : Nat := 10

/-- The duplicate test of the inner loop (lines 461-488) against one
accepted fingerprint: exact match; else, only when both fingerprints are
strictly longer than `MIN_LEN_FOR_FUZZY`, inclusion
(`current.includes(existing) || existing.includes(current)`) or equality of
the first 15 characters. -/
def isDupOf (currentFingerprint existingFP : List Char) : Bool :=
  currentFingerprint == existingFP ||
  (MIN_LEN_FOR_FUZZY < currentFingerprint.length &&
   MIN_LEN_FOR_FUZZY < existingFP.length &&
   (decide (existingFP <:+: currentFingerprint) ||
    decide (currentFingerprint <:+: existingFP) ||
    currentFingerprint.take 15 == existingFP.take 15))

/-- The streaming accept/reject scan of lines 447-495: clean the text,
fingerprint it, drop empty fingerprints, drop duplicates of any previously
accepted fingerprint, otherwise append the (text-cleaned) question and its
fingerprint.  The source's `for ... break` scan over
`acceptedFingerprints` is the `List.any` below. -/
def dedupGo : List Question → List Question → List (List Char) → List Question
  | [], uniqueQuestions, _ => uniqueQuestions
  | q :: rest, uniqueQuestions, acceptedFingerprints =>
    let cleanedText := cleanQuestionPfx q.questionText
    let q2 : Question := { q with questionText := cleanedText }
    let currentFingerprint := fingerprint cleanedText
    if currentFingerprint.length = 0 then
      dedupGo rest uniqueQuestions acceptedFingerprints
    else if acceptedFingerprints.any (fun fp => isDupOf currentFingerprint fp) then
      dedupGo rest uniqueQuestions acceptedFingerprints
    else
      dedupGo rest (uniqueQuestions ++ [q2])
        (acceptedFingerprints ++ [currentFingerprint])

/-- Deduplication pass entry point. -/
def dedupQuestions (qs : List Question) : List Question := dedupGo qs [] []

/-- First question of the C1 example list. -/
def exq1 : Question :=
  ⟨"q1".data, .SHORT_ANSWER, "什么是光合作用？".data, [], .str [], []⟩

/-- Second question of the C1 example list. -/
def exq2 : Question :=
  ⟨"q2".data, .SHORT_ANSWER, "请问什么是光合作用？".data, [], .str [], []⟩

/-- Third question of the C1 example list. -/
def exq3 : Question :=
  ⟨"q3".data, .SHORT_ANSWER, "完全不同的问题内容测试一下".data, [], .str [], []⟩

/-- C1 counterexample: on the three-question example list the deduplicator
keeps all three questions — the second is not dropped, so the returned
list is not `[first, third]` as claimed.  The inclusion rule cannot fire:
it requires both fingerprints to be strictly longer than 10 characters,
but the fingerprints of the first two questions have lengths 7 and 9. -/
theorem dedup_example_cex :
    (dedupQuestions [exq1, exq2, exq3]).map Question.questionText =
      ["什么是光合作用？".data, "请问什么是光合作用？".data,
       "完全不同的问题内容测试一下".data] ∧
    ["什么是光合作用？".data, "请问什么是光合作用？".data,
       "完全不同的问题内容测试一下".data] ≠
      ["什么是光合作用？".data, "完全不同的问题内容测试一下".data] := by
  constructor
  · decide
  · decide

/-- C1 (amended): on the input list `什么是光合作用？`, `请问什么是光合作用？`,
`完全不同的问题内容测试一下` the deduplicator accepts all three questions:
the fingerprints of the first two have lengths 7 and 9, below the
`MIN_LEN_FOR_FUZZY = 10` floor that gates the inclusion rule, and no exact
match occurs. -/
theorem dedup_example_all_kept :
    (dedupQuestions [exq1, exq2, exq3]).map Question.questionText =
      ["什么是光合作用？".data, "请问什么是光合作用？".data,
       "完全不同的问题内容测试一下".data] ∧
    (fingerprint "什么是光合作用？".data).length = 7 ∧
    (fingerprint "请问什么是光合作用？".data).length = 9 ∧
    ¬ (MIN_LEN_FOR_FUZZY < (fingerprint "请问什么是光合作用？".data).length) := by
  refine ⟨by decide, by decide, by decide, by decide⟩

/-! ## Retrying call executor (`callWithRetry`, lines 8-31)

The operation is modelled as a function from the attempt index to an
outcome; the executor's observable behaviour is collected in a trace:
how many times the operation was invoked, which delays were slept before
each retry, and the final outcome.  Delays are rationals; `delay * 1.5` in
the source is exact float arithmetic for the reachable values. -/

/-- Observable behaviour of one `callWithRetry` run. -/
structure RetryTrace (E A : Type) where
  calls : Nat
  sleeps : List ℚ
  outcome : Except E A

/-- Lines 8-31: try the operation; on failure with `retries ≤ 0` rethrow
the original error, otherwise sleep `delay`, recurse with `retries - 1`
and `delay * 1.5`. -/
def callWithRetry {E A : Type} (fn : Nat → Except E A) :
    Nat → Nat → ℚ → RetryTrace E A
  | attemptIdx, retries, delay =>
    match fn attemptIdx with
    | .ok v => ⟨1, [], .ok v⟩
    | .error e =>
      match retries with
      | 0 => ⟨1, [], .error e⟩
      | r + 1 =>
        let t := callWithRetry fn (attemptIdx + 1) r (delay * (3 / 2))
        ⟨t.calls + 1, delay :: t.sleeps, t.outcome⟩

/-- C4: an operation that fails on every invocation, wrapped with
`maxRetries = 3` and initial delay `d`, is invoked exactly 4 times, sleeps
`d`, `1.5·d`, `1.5²·d` before the three retries, and finally rejects with
the original error of the last (fourth) attempt. -/
theorem retry_exhaustion (E A : Type) (fn : Nat → Except E A) (d : ℚ)
    (hfail : ∀ k, ∃ e, fn k = .error e) :
    (callWithRetry fn 0 3 d).calls = 4 ∧
    (callWithRetry fn 0 3 d).sleeps =
      [d, d * (3 / 2), d * (3 / 2) * (3 / 2)] ∧
    ∃ e, fn 3 = .error e ∧ (callWithRetry fn 0 3 d).outcome = .error e := by
  obtain ⟨e0, h0⟩ := hfail 0
  obtain ⟨e1, h1⟩ := hfail 1
  obtain ⟨e2, h2⟩ := hfail 2
  obtain ⟨e3, h3⟩ := hfail 3
  refine ⟨?_, ?_, e3, h3, ?_⟩ <;>
    simp [callWithRetry, h0, h1, h2, h3]

/-- Witness for `retry_exhaustion`: the operation that fails with its own
attempt index, at initial delay 2000. -/
theorem retry_exhaustion_witness :
    (callWithRetry (E := Nat) (A := Unit) (fun k => .error k) 0 3 2000).calls = 4 ∧
    (callWithRetry (E := Nat) (A := Unit) (fun k => .error k) 0 3 2000).sleeps =
      [2000, 2000 * (3 / 2), 2000 * (3 / 2) * (3 / 2)] ∧
    ∃ e, (fun k => Except.error (α := Unit) k) 3 = .error e ∧
      (callWithRetry (E := Nat) (A := Unit)
        (fun k => .error k) 0 3 2000).outcome = .error e :=
  retry_exhaustion Nat Unit (fun k => .error k) 2000 (fun k => ⟨k, rfl⟩)

/-! ## Enrichment keyword classification (`fetchExternalContext`,
lines 95-107)

```
let keywords = keywordResp.text?.trim() || "";
keywords = keywords.replace(/^(关键词|Keywords)[:：]​/i, '').trim();
const isNone = keywords === 'NONE' || keywords === 'None' || keywords === 'none';
const isChattyCompleteness = keywords.length > 40 && (keywords.includes("完整")
  || keywords.includes("提供") || keywords.includes("没有缺失")
  || keywords.includes("无需"));
if (!keywords || isNone || isChattyCompleteness) { ...skip search, return ""; }
```
-/

/-- Tail `[:：]` of the line-98 label regex (no trailing `\s*`; the
explicit `.trim()` afterwards handles whitespace). -/
def matchKwTail (cs : List Char) : Option (List Char) :=
  match cs with
  | c :: rest => if c = ':' || c = '：' then some rest else none
  | [] => none

/-- Line 98 regex `/^(关键词|Keywords)[:：]​/i`. -/
def matchKwLabel (cs : List Char) : Option (List Char) :=
  firstAlt matchKwTail ["关键词".data, "Keywords".data] cs

/-- Lines 95-104: normalize the extraction response and decide whether the
search step is skipped.  Returns `(skip, keywords)` where `keywords` is the
label-stripped, trimmed keyword string and `skip` is the condition of
line 104. -/
def keywordDecision (respText : Option (List Char)) : Bool × List Char :=
  let kw0 := match respText with
    | some t => jsTrim t
    | none => []
  let keywords := jsTrim (stripMatch matchKwLabel kw0)
  let isNone := keywords == "NONE".data || keywords == "None".data ||
    keywords == "none".data
  let isChattyCompleteness :=
    40 < keywords.length &&
    (decide ("完整".data <:+: keywords) || decide ("提供".data <:+: keywords) ||
     decide ("没有缺失".data <:+: keywords) ||
     decide ("无需".data <:+: keywords))
  (keywords.isEmpty || isNone || isChattyCompleteness, keywords)

/-- Case-insensitive equality with `NONE`, as the claim words it
("equals NONE case-insensitively"); stated from the spec's words for the
purpose of refuting the claim, not taken from the source. -/
def eqNoneCI (k : List Char) : Bool := k.map asciiLower == "none".data

/-- C8 counterexample: the keyword string `nOne` equals `NONE`
case-insensitively, yet the code does not skip the search step — the
source compares only against the three literal spellings `NONE`, `None`,
`none` (line 101). -/
theorem keyword_skip_ci_cex :
    eqNoneCI "nOne".data = true ∧
    (keywordDecision (some "nOne".data)).1 = false ∧
    (keywordDecision (some "nOne".data)).2 = "nOne".data := by
  refine ⟨by decide, by decide, by decide⟩

/-- C8 (amended): the enrichment phase skips the search step exactly when
the keyword string — after stripping a leading `关键词:`/`Keywords:` label
and trimming — is empty, is one of the three literal spellings `NONE`,
`None`, `none`, or is longer than 40 characters while containing one of
the completeness markers `完整`, `提供`, `没有缺失`, `无需`. -/
theorem keyword_skip_iff (respText : Option (List Char)) :
    (keywordDecision respText).1 = true ↔
      ((keywordDecision respText).2 = [] ∨
       (keywordDecision respText).2 = "NONE".data ∨
       (keywordDecision respText).2 = "None".data ∨
       (keywordDecision respText).2 = "none".data ∨
       (40 < (keywordDecision respText).2.length ∧
        ("完整".data <:+: (keywordDecision respText).2 ∨
         "提供".data <:+: (keywordDecision respText).2 ∨
         "没有缺失".data <:+: (keywordDecision respText).2 ∨
         "无需".data <:+: (keywordDecision respText).2))) := by
  simp only [keywordDecision, List.isEmpty_iff, Bool.or_eq_true,
    Bool.and_eq_true, beq_iff_eq, decide_eq_true_eq]
  tauto

/-! ## `JSON.parse` model

A faithful model of the ECMAScript `JSON.parse` grammar: a single value
(object, array, string, number, `true`, `false`, `null`) surrounded by
JSON whitespace (space, TAB, LF, CR).  String escapes are handled,
including `\uXXXX` with surrogate-pair combination; a *lone* surrogate
(legal in a JS string but not a Unicode scalar value) is modelled as
U+FFFD, which is adequate here because no pipeline code path and no claim
distinguishes lone surrogates.  Parsed numbers keep their lexeme (see
`JsValue.num`).  Recursion is fuelled so that every definition reduces in
the kernel; the fuel picked by `jsonParse` is sufficient for every input
because at least one input character is consumed per two recursive calls. -/

/-- JSON whitespace. -/
def isJsonWs (c : Char) : Bool :=
  c.val.toNat = 32 || c.val.toNat = 9 || c.val.toNat = 10 || c.val.toNat = 13

/-- Skip JSON whitespace. -/
def skipWsJson (cs : List Char) : List Char := cs.dropWhile isJsonWs

/-- Left and right brace characters (written by code point). -/
def lBrace : Char := Char.ofNat 123

/-- Right brace character. -/
def rBrace : Char := Char.ofNat 125

/-- Hex digit value. -/
def hexVal (c : Char) : Option Nat :=
  let n := c.val.toNat
  if 48 ≤ n ∧ n ≤ 57 then some (n - 48)
  else if 97 ≤ n ∧ n ≤ 102 then some (n - 87)
  else if 65 ≤ n ∧ n ≤ 70 then some (n - 55)
  else none

/-- Four hex digits. -/
def parseHex4 (cs : List Char) : Option (Nat × List Char) :=
  match cs with
  | a :: b :: c :: d :: rest =>
    match hexVal a, hexVal b, hexVal c, hexVal d with
    | some va, some vb, some vc, some vd =>
      some (va * 4096 + vb * 256 + vc * 16 + vd, rest)
    | _, _, _, _ => none
  | _ => none

/-- Decode one escape character after a backslash (`"`, `\`, `/`, `b`,
`f`, `n`, `r`, `t`); `u` is handled by the caller. -/
def simpleEscape (c : Char) : Option Char :=
  if c = '"' then some '"'
  else if c = '\\' then some '\\'
  else if c = '/' then some '/'
  else if c = 'b' then some (Char.ofNat 8)
  else if c = 'f' then some (Char.ofNat 12)
  else if c = 'n' then some '\n'
  else if c = 'r' then some '\r'
  else if c = 't' then some '\t'
  else none

/-- Body of a JSON string after the opening quote; returns the decoded
characters and the remainder after the closing quote. -/
def parseStrBody : Nat → List Char → Option (List Char × List Char)
  | 0, _ => none
  | fuel + 1, cs =>
    match cs with
    | [] => none
    | c :: rest =>
      if c = '"' then some ([], rest)
      else if c = '\\' then
        match rest with
        | [] => none
        | e :: rest2 =>
          if e = 'u' then
            match parseHex4 rest2 with
            | none => none
            | some (n, rest3) =>
              if 0xd800 ≤ n ∧ n ≤ 0xdbff then
                match rest3 with
                | '\\' :: 'u' :: rest4 =>
                  match parseHex4 rest4 with
                  | some (m, rest5) =>
                    if 0xdc00 ≤ m ∧ m ≤ 0xdfff then
                      (parseStrBody fuel rest5).map (fun (s, r) =>
                        (Char.ofNat (0x10000 + (n - 0xd800) * 0x400 +
                          (m - 0xdc00)) :: s, r))
                    else
                      (parseStrBody fuel rest3).map (fun (s, r) =>
                        (Char.ofNat 0xfffd :: s, r))
                  | none =>
                    (parseStrBody fuel rest3).map (fun (s, r) =>
                      (Char.ofNat 0xfffd :: s, r))
                | _ =>
                  (parseStrBody fuel rest3).map (fun (s, r) =>
                    (Char.ofNat 0xfffd :: s, r))
              else if 0xdc00 ≤ n ∧ n ≤ 0xdfff then
                (parseStrBody fuel rest3).map (fun (s, r) =>
                  (Char.ofNat 0xfffd :: s, r))
              else
                (parseStrBody fuel rest3).map (fun (s, r) =>
                  (Char.ofNat n :: s, r))
          else
            match simpleEscape e with
            | some d =>
              (parseStrBody fuel rest2).map (fun (s, r) => (d :: s, r))
            | none => none
      else if c.val.toNat < 32 then none
      else (parseStrBody fuel rest).map (fun (s, r) => (c :: s, r))

/-- Exact literal match (case-sensitive), for `true`/`false`/`null`. -/
def expectLit : List Char → List Char → Option (List Char)
  | [], cs => some cs
  | _ :: _, [] => none
  | p :: ps, c :: cs => if p = c then expectLit ps cs else none

/-- JSON number lexeme: `-? (0 | [1-9][0-9]*) (. [0-9]+)? ([eE][+-]?[0-9]+)?`;
returns the lexeme and the remainder. -/
def parseNum (cs : List Char) : Option (List Char × List Char) :=
  let signRes : List Char × List Char :=
    match cs with
    | c :: r => if c = '-' then ([c], r) else ([], cs)
    | [] => ([], cs)
  let sgn := signRes.1
  let cs1 := signRes.2
  match cs1 with
  | c :: r =>
    if c = '0' then some (sgn ++ [c], r) |>.bind fun (lex, rest) =>
      numFracExp lex rest
    else if isDigit c = true then
      numFracExp (sgn ++ cs1.takeWhile isDigit) (cs1.dropWhile isDigit)
    else none
  | [] => none
where
  /-- Optional fraction and exponent after the integer part. -/
  numFracExp (lex rest : List Char) : Option (List Char × List Char) :=
    let fracRes : Option (List Char × List Char) :=
      match rest with
      | '.' :: r2 =>
        match r2.takeWhile isDigit with
        | [] => none
        | ds => some (lex ++ '.' :: ds, r2.dropWhile isDigit)
      | _ => some (lex, rest)
    match fracRes with
    | none => none
    | some (lex2, rest2) =>
      match rest2 with
      | e :: r3 =>
        if e = 'e' ∨ e = 'E' then
          let signRes2 : List Char × List Char :=
            match r3 with
            | s :: r4 => if s = '+' ∨ s = '-' then ([s], r4) else ([], r3)
            | [] => ([], r3)
          match signRes2.2.takeWhile isDigit with
          | [] => none
          | ds => some (lex2 ++ e :: (signRes2.1 ++ ds),
              signRes2.2.dropWhile isDigit)
        else some (lex2, rest2)
      | [] => some (lex2, rest2)

/-- Parsing task: a value, the tail of an array after `[` (knowing the
array is non-empty), or the tail of an object after the left brace. -/
inductive JTask where
  | val (cs : List Char)
  | arrElems (cs : List Char)
  | objMembers (cs : List Char)

/-- The fuelled JSON parser.  `arrElems`/`objMembers` tasks return their
collected contents wrapped in `.arr`/`.obj`. -/
def parseJ : Nat → JTask → Option (JsValue × List Char)
  | 0, _ => none
  | fuel + 1, .val cs =>
    match skipWsJson cs with
    | [] => none
    | c :: rest =>
      if c = lBrace then
        match skipWsJson rest with
        | c2 :: r2 =>
          if c2 = rBrace then some (.obj [], r2)
          else parseJ fuel (.objMembers rest)
        | [] => none
      else if c = '[' then
        match skipWsJson rest with
        | c2 :: r2 =>
          if c2 = ']' then some (.arr [], r2)
          else parseJ fuel (.arrElems rest)
        | [] => none
      else if c = '"' then
        (parseStrBody (rest.length + 1) rest).map (fun (s, r) => (.str s, r))
      else if c = 't' then
        (expectLit "rue".data rest).map (fun r => (.bool true, r))
      else if c = 'f' then
        (expectLit "alse".data rest).map (fun r => (.bool false, r))
      else if c = 'n' then
        (expectLit "ull".data rest).map (fun r => (.null, r))
      else
        (parseNum (c :: rest)).map (fun (lex, r) => (.num lex, r))
  | fuel + 1, .arrElems cs =>
    match parseJ fuel (.val cs) with
    | none => none
    | some (v, rest) =>
      match skipWsJson rest with
      | c :: r2 =>
        if c = ',' then
          match parseJ fuel (.arrElems r2) with
          | some (.arr es, r) => some (.arr (v :: es), r)
          | _ => none
        else if c = ']' then some (.arr [v], r2)
        else none
      | [] => none
  | fuel + 1, .objMembers cs =>
    match skipWsJson cs with
    | '"' :: rest =>
      match parseStrBody (rest.length + 1) rest with
      | none => none
      | some (key, rest2) =>
        match skipWsJson rest2 with
        | ':' :: rest3 =>
          match parseJ fuel (.val rest3) with
          | none => none
          | some (v, rest4) =>
            match skipWsJson rest4 with
            | c :: r5 =>
              if c = ',' then
                match parseJ fuel (.objMembers r5) with
                | some (.obj ms, r) => some (.obj ((key, v) :: ms), r)
                | _ => none
              else if c = rBrace then some (.obj [(key, v)], r5)
              else none
            | [] => none
        | _ => none
    | _ => none

/-- `JSON.parse`: parse one value and require only whitespace after it;
`none` models a thrown `SyntaxError`. -/
def jsonParse (cs : List Char) : Option JsValue :=
  match parseJ (2 * cs.length + 4) (.val cs) with
  | some (v, rest) => if (skipWsJson rest).isEmpty then some v else none
  | none => none

/-! ## Answer normalizer (`generateBatchQuestions`, lines 284-303)

```
if (['MULTI_CHOICE', 'ORDERING', 'MATCHING', 'FILL_IN_BLANK'].includes(q.type)) {
    if (typeof q.correctAnswer === 'string') {
        if (q.correctAnswer.trim().startsWith('[') || q.correctAnswer.includes(',')) {
            try { cleanAnswer = JSON.parse(q.correctAnswer); }
            catch { cleanAnswer = q.correctAnswer.split(/[,，、]/).map(s => s.trim()); }
        } else { cleanAnswer = [q.correctAnswer]; }
    }
}
```
-/

/-- The four question types whose string answers are reshaped (line 288). -/
def fuzzyAnswerTypes : List QuestionType :=
  [.MULTI_CHOICE, .ORDERING, .MATCHING, .FILL_IN_BLANK]

/-- The split class `[,，、]` of line 295. -/
def isSplitSep (c : Char) : Bool := c = ',' || c = '，' || c = '、'

/-- `String.prototype.split` on a single-character-class regex: `n`
separators yield `n + 1` pieces, empty pieces included. -/
def splitOnSeps (cs : List Char) : List (List Char) :=
  match cs with
  | [] => [[]]
  | c :: rest =>
    if isSplitSep c then [] :: splitOnSeps rest
    else
      match splitOnSeps rest with
      | [] => [[c]]
      | p :: ps => (c :: p) :: ps

/-- `trim().startsWith('[')` of line 290. -/
def trimStartsWithBracket (cs : List Char) : Bool :=
  match jsTrim cs with
  | c :: _ => c = '['
  | [] => false

/-- Lines 284-303: normalization of one raw `correctAnswer` according to
the question type. -/
def normalizeCorrectAnswer (qtype : QuestionType) (correctAnswer : JsValue) :
    JsValue :=
  if qtype ∈ fuzzyAnswerTypes then
    match correctAnswer with
    | .str s =>
      if trimStartsWithBracket s || s.contains ',' then
        match jsonParse s with
        | some v => v
        | none => .arr ((splitOnSeps s).map (fun p => .str (jsTrim p)))
      else .arr [.str s]
    | v => v
  else correctAnswer

/-- Whether a JS value is an array. -/
def isArrB : JsValue → Bool
  | .arr _ => true
  | _ => false

/-- C3 counterexample: for type `MULTI_CHOICE` the string `"A,B"`
(with literal double quotes, i.e. a complete JSON string document
containing a comma) passes the comma test, `JSON.parse` succeeds and
returns the bare string `A,B`, so the normalizer produces a plain string
rather than a sequence. -/
theorem normalize_nonseq_cex :
    normalizeCorrectAnswer .MULTI_CHOICE (.str "\"A,B\"".data) =
      .str "A,B".data ∧
    isArrB (normalizeCorrectAnswer .MULTI_CHOICE (.str "\"A,B\"".data)) =
      false := by
  exact ⟨rfl, rfl⟩

/-- C3 (amended): for the four reshaped types the normalizer produces a
sequence unless the raw string is a complete JSON document of non-array
type (which requires it to contain a comma or start, after trimming, with
`[`), in which case the parsed value is used as-is; for every other type a
string answer is left unchanged; the normalizer is a total function — no
parse failure escapes (failure falls back to the separator split) and no
question is dropped.  The claim's three examples hold:
`'["A","B"]'` parses to `["A","B"]`, `A,B` fails to parse and splits to
`["A","B"]`, and the bare `A` is wrapped into `["A"]`. -/
theorem normalize_shape (t : QuestionType) (s : List Char) :
    (t ∈ fuzzyAnswerTypes →
      isArrB (normalizeCorrectAnswer t (.str s)) = true ∨
      ∃ v, jsonParse s = some v ∧ isArrB v = false ∧
        normalizeCorrectAnswer t (.str s) = v) ∧
    (t ∉ fuzzyAnswerTypes → normalizeCorrectAnswer t (.str s) = .str s) ∧
    normalizeCorrectAnswer .MULTI_CHOICE (.str "[\"A\",\"B\"]".data) =
      .arr [.str "A".data, .str "B".data] ∧
    normalizeCorrectAnswer .MULTI_CHOICE (.str "A,B".data) =
      .arr [.str "A".data, .str "B".data] ∧
    normalizeCorrectAnswer .MULTI_CHOICE (.str "A".data) =
      .arr [.str "A".data] := by
  refine ⟨?_, ?_, rfl, rfl, rfl⟩
  · intro ht
    unfold normalizeCorrectAnswer
    rw [if_pos ht]
    dsimp only
    by_cases hc : (trimStartsWithBracket s || s.contains ',') = true
    · rw [if_pos hc]
      cases hp : jsonParse s with
      | none => exact Or.inl rfl
      | some v =>
        cases v with
        | arr es => exact Or.inl rfl
        | null => exact Or.inr ⟨_, rfl, rfl, rfl⟩
        | bool b => exact Or.inr ⟨_, rfl, rfl, rfl⟩
        | num lex => exact Or.inr ⟨_, rfl, rfl, rfl⟩
        | str s2 => exact Or.inr ⟨_, rfl, rfl, rfl⟩
        | obj ms => exact Or.inr ⟨_, rfl, rfl, rfl⟩
    · rw [if_neg hc]
      exact Or.inl rfl
  · intro ht
    unfold normalizeCorrectAnswer
    rw [if_neg ht]

/-- Witness for `normalize_shape`: the first conjunct instantiated at
type `MULTI_CHOICE` and the unparsable comma string `A,B`. -/
theorem normalize_shape_witness :
    isArrB (normalizeCorrectAnswer .MULTI_CHOICE (.str "A,B".data)) = true ∨
    ∃ v, jsonParse "A,B".data = some v ∧ isArrB v = false ∧
      normalizeCorrectAnswer .MULTI_CHOICE (.str "A,B".data) = v :=
  (normalize_shape .MULTI_CHOICE "A,B".data).1 (by decide)

/-! ## Scheduler and pipeline (`generateExamQuestions`, lines 337-509)

The asynchronous scheduler is modelled by its value semantics: each
shard's generation call is an `Except` outcome indexed by shard number and
shard size (the outcome already accounts for the retries inside
`generateBatchQuestions`).  SERIAL mode awaits shards in order and aborts
on the first failure; PARALLEL mode launches every shard and joins with
`Promise.all`, which rejects if any shard rejects (modelled with the error
of the least-index rejecting shard) and otherwise resolves with the
concatenation in launch order.  In both modes the value delivered to the
caller is the same function of the shard outcomes; the modes differ only
in timing and logging (treated in the trace model below). -/

/-- Scheduling mode (`externalSearch` line 812). -/
inductive ShardingMode where
  | SERIAL
  | PARALLEL
deriving DecidableEq

/-- The performance configuration read at lines 349-351 (the request delay
does not affect value semantics). -/
structure GenConfig where
  userBatchSize : Nat
  shardingMode : ShardingMode

/-- SERIAL scheduling (lines 380-404): run shards in order, abort on the
first failure; later shards never run. -/
def runSerial {E : Type} (gen : Nat → Nat → Except E (List Question)) :
    List Nat → Nat → Except E (List Question)
  | [], _ => .ok []
  | c :: cs, i =>
    match gen i c with
    | .error e => .error e
    | .ok qs =>
      match runSerial gen cs (i + 1) with
      | .error e => .error e
      | .ok rest => .ok (qs ++ rest)

/-- `Promise.all` join (line 431): reject with the error of the first
rejecting element, otherwise resolve with the concatenation. -/
def promiseAll {E : Type} :
    List (Except E (List Question)) → Except E (List Question)
  | [] => .ok []
  | .error e :: _ => .error e
  | .ok qs :: rest =>
    match promiseAll rest with
    | .error e => .error e
    | .ok acc => .ok (qs ++ acc)

/-- PARALLEL scheduling (lines 406-433): launch all shards, then join. -/
def runParallel {E : Type} (gen : Nat → Nat → Except E (List Question))
    (batchCounts : List Nat) : Except E (List Question) :=
  promiseAll (batchCounts.enum.map (fun p => gen p.1 p.2))

/-- Line 504: `uniqueQuestions.sort(() => Math.random() - 0.5)`.  The
ECMAScript specification makes the resulting order implementation-defined
under an inconsistent comparator, but the sort always returns a
permutation of its input (the spec sorts a copied element list); this is
modelled as a comparison sort driven by an arbitrary comparator oracle
`rnd` standing for the random draws. -/
def jsRandomSort (rnd : Question → Question → Bool) (l : List Question) :
    List Question :=
  List.insertionSort (fun a b => rnd a b = true) l

/-- The value semantics of `generateExamQuestions` (lines 337-509): plan
the shards, schedule them according to the mode, deduplicate, and shuffle
if requested; any scheduling error propagates unchanged (lines 506-508). -/
def generateExamQuestions {E : Type}
    (gen : Nat → Nat → Except E (List Question)) (count : Nat)
    (cfg : GenConfig) (shuffle : Bool) (rnd : Question → Question → Bool) :
    Except E (List Question) :=
  let batchCounts := buildBatchCounts count cfg.userBatchSize
  let scheduled :=
    match cfg.shardingMode with
    | .SERIAL => runSerial gen batchCounts 0
    | .PARALLEL => runParallel gen batchCounts
  match scheduled with
  | .error e => .error e
  | .ok questions =>
    let uniqueQuestions := dedupQuestions questions
    .ok (if shuffle then jsRandomSort rnd uniqueQuestions
         else uniqueQuestions)

theorem promiseAll_isError {E : Type}
    (rs : List (Except E (List Question)))
    (h : ∃ r ∈ rs, ∃ e, r = .error e) :
    ∃ e, promiseAll rs = .error e ∧ Except.error e ∈ rs := by
  induction rs with
  | nil => simp at h
  | cons r rest ih =>
    cases r with
    | error e => exact ⟨e, rfl, List.mem_cons_self _ _⟩
    | ok qs =>
      have hrest : ∃ r ∈ rest, ∃ e, r = .error e := by
        obtain ⟨r, hr, e, he⟩ := h
        rcases List.mem_cons.mp hr with h1 | h1
        · rw [h1] at he; exact absurd he (by simp)
        · exact ⟨r, h1, e, he⟩
      obtain ⟨e, he, hmem⟩ := ih hrest
      refine ⟨e, ?_, List.mem_cons_of_mem _ hmem⟩
      simp only [promiseAll, he]

/-- C5: in PARALLEL sharding mode, if any one of the launched shard
generation calls ultimately rejects, `generateExamQuestions` rejects with
a shard error (the error of the least-index rejecting shard — in
particular, when exactly one shard rejects, that shard's error), and no
question list is returned to the caller. -/
theorem parallel_shard_failure {E : Type}
    (gen : Nat → Nat → Except E (List Question)) (count : Nat)
    (cfg : GenConfig) (shuffle : Bool) (rnd : Question → Question → Bool)
    (hmode : cfg.shardingMode = .PARALLEL)
    (hfail : ∃ p ∈ (buildBatchCounts count cfg.userBatchSize).enum,
      ∃ e, gen p.1 p.2 = .error e) :
    ∃ e, generateExamQuestions gen count cfg shuffle rnd = .error e ∧
      (∃ p ∈ (buildBatchCounts count cfg.userBatchSize).enum,
        gen p.1 p.2 = .error e) ∧
      ∀ qs, generateExamQuestions gen count cfg shuffle rnd ≠ .ok qs := by
  have hmap : ∃ r ∈ (buildBatchCounts count cfg.userBatchSize).enum.map
      (fun p => gen p.1 p.2), ∃ e, r = .error e := by
    obtain ⟨p, hp, e, he⟩ := hfail
    exact ⟨gen p.1 p.2, List.mem_map_of_mem _ hp, e, he⟩
  obtain ⟨e, he, hmem⟩ := promiseAll_isError _ hmap
  have hrun : generateExamQuestions gen count cfg shuffle rnd = .error e := by
    unfold generateExamQuestions
    rw [hmode]
    simp only [runParallel, he]
  refine ⟨e, hrun, ?_, ?_⟩
  · obtain ⟨p, hp, hpe⟩ := List.mem_map.mp hmem
    exact ⟨p, hp, hpe⟩
  · intro qs hqs
    rw [hrun] at hqs
    exact absurd hqs (by simp)

/-- Witness for `parallel_shard_failure`: two shards of 10 for a count of
20, the second of which rejects with error 7. -/
theorem parallel_shard_failure_witness :
    ∃ e, generateExamQuestions (E := Nat)
        (fun i _ => if i = 1 then .error 7 else .ok []) 20
        ⟨10, .PARALLEL⟩ false (fun _ _ => false) = .error e ∧
      (∃ p ∈ (buildBatchCounts 20 10).enum,
        (fun (i : Nat) (_ : Nat) => if i = 1 then Except.error 7
          else Except.ok ([] : List Question)) p.1 p.2 = .error e) ∧
      ∀ qs, generateExamQuestions (E := Nat)
        (fun i _ => if i = 1 then .error 7 else .ok []) 20
        ⟨10, .PARALLEL⟩ false (fun _ _ => false) ≠ .ok qs := by
  refine parallel_shard_failure _ 20 ⟨10, .PARALLEL⟩ false (fun _ _ => false)
    rfl ?_
  have hplan : buildBatchCounts 20 10 = [10, 10] := by
    simp [buildBatchCounts.eq_def]
  rw [hplan]
  exact ⟨(1, 10), by simp [List.enum], 7, rfl⟩

/-- C10: a successfully returned question list is always a permutation of
the deduplicated accepted list; with the shuffle flag off it is exactly
that list (acceptance order preserved), and with shuffle on the random
reordering neither adds, drops nor duplicates a question. -/
theorem result_is_permutation {E : Type}
    (gen : Nat → Nat → Except E (List Question)) (count : Nat)
    (cfg : GenConfig) (shuffle : Bool) (rnd : Question → Question → Bool)
    (out : List Question)
    (h : generateExamQuestions gen count cfg shuffle rnd = .ok out) :
    ∃ qs, (match cfg.shardingMode with
        | .SERIAL => runSerial gen (buildBatchCounts count cfg.userBatchSize) 0
        | .PARALLEL => runParallel gen (buildBatchCounts count cfg.userBatchSize))
        = .ok qs ∧
      out.Perm (dedupQuestions qs) ∧
      (shuffle = false → out = dedupQuestions qs) := by
  unfold generateExamQuestions at h
  dsimp only at h
  cases hs : (match cfg.shardingMode with
      | .SERIAL => runSerial gen (buildBatchCounts count cfg.userBatchSize) 0
      | .PARALLEL => runParallel gen (buildBatchCounts count cfg.userBatchSize))
    with
  | error e => rw [hs] at h; exact absurd h (by simp)
  | ok qs =>
    rw [hs] at h
    simp only [Except.ok.injEq] at h
    refine ⟨qs, rfl, ?_, ?_⟩
    · cases shuffle with
      | false =>
        rw [← h]
        simp
      | true =>
        rw [← h]
        simpa [jsRandomSort] using
          List.perm_insertionSort (fun a b => rnd a b = true)
            (dedupQuestions qs)
    · intro hsh
      rw [hsh] at h
      rw [← h]
      simp

/-- Witness for `result_is_permutation`: a single successful shard with
one question, serial mode, shuffle off. -/
theorem result_is_permutation_witness :
    ∃ qs, (match (⟨10, .SERIAL⟩ : GenConfig).shardingMode with
        | .SERIAL => runSerial (E := Unit) (fun _ _ => .ok [exq1])
            (buildBatchCounts 1 10) 0
        | .PARALLEL => runParallel (fun _ _ => .ok [exq1])
            (buildBatchCounts 1 10)) = .ok qs ∧
      (dedupQuestions [exq1]).Perm (dedupQuestions qs) ∧
      (false = false → dedupQuestions [exq1] = dedupQuestions qs) := by
  refine result_is_permutation (fun _ _ => .ok [exq1]) 1 ⟨10, .SERIAL⟩ false
    (fun _ _ => false) (dedupQuestions [exq1]) ?_
  have hplan : buildBatchCounts 1 10 = [1] := by
    simp [buildBatchCounts.eq_def]
  unfold generateExamQuestions
  rw [hplan]
  rfl

/-! ## Progress/log traces (C9)

The `onLog` event stream of a `generateExamQuestions` run is modelled as
the list of `progressPercent` values it carries, in emission order.
JavaScript runs callbacks cooperatively, so for a fixed run shape the
order is determined; the model is parameterized by the run shape:
the enrichment outcome, the number of shards `n`
(`batchCounts.length`), whether the inter-shard delay is positive, the
number of retry log lines of each shard, and whether the duplicate-filter
summary line (line 498) fires.

In SERIAL mode shard `i` runs while `currentProgress` holds
`40 + Math.round(((i)/n)*50)` (the value set on completing shard `i-1`,
40 initially), so the optional delay line (line 384), the start line
(line 388) and every retry line (via the closure at line 398) carry that
value, and the completion line (line 403) carries the updated value.

In PARALLEL mode with `userRequestDelay = 0` the launch loop contains no
`await`, so the launch lines (lines 407 and 416, at the stale 40) and the
dispatch-complete line (line 430, hard-coded 80) are emitted synchronously
*before* any shard callback can run; every retry line (only shard 0 logs,
line 425) then carries `currentProgress`, still 40 — it is updated to 90
only after the join (line 433), which emits no log.  `Math.round` on the
reachable values is modelled as `⌊q + 1/2⌋` over `ℚ`. -/

/-- `Math.round`: round half up. -/
def jsRound (q : ℚ) : ℤ := ⌊q + 1 / 2⌋

/-- The `currentProgress` value while shard `i` of `n` is running
(equivalently, after `i` shards have completed): 40 initially, then
`40 + Math.round(((i)/n)*50)` (line 402). -/
def shardProg (n i : Nat) : ℤ := 40 + jsRound ((i : ℚ) / (n : ℚ) * 50)

/-- Run shapes of the enrichment phase (`fetchExternalContext`) and the
progress values they log: no materials (line 43, returns before logging);
keyword-extraction exception (logs 12, 15, then the catch at line 159 logs
25); skip decision (logs 12, 15, 20 at line 105); search with no usable
context (logs 12, 15, 18, 20); search producing context (adds the line-150
log at 25); search exception (adds the line-159 catch log at 25). -/
inductive EnrichOutcome where
  | noMaterials
  | earlyError
  | skipKeywords
  | searchedNoContext
  | searchedContext
  | lateError

/-- Progress values logged by the enrichment phase for each run shape. -/
def enrichTrace : EnrichOutcome → List ℤ
  | .noMaterials => []
  | .earlyError => [12, 15, 25]
  | .skipKeywords => [12, 15, 20]
  | .searchedNoContext => [12, 15, 18, 20]
  | .searchedContext => [12, 15, 18, 20, 25]
  | .lateError => [12, 15, 18, 20, 25]

/-- Progress values logged while serial shard `i` of `n` runs: the
optional delay line (line 384, only for `i > 0` with a positive delay),
the start line (line 388), one line per retry (line 398 closure), and the
completion line (line 403). -/
def serialShardSeg (n : Nat) (delayPos : Bool) (retries : Nat → Nat)
    (i : Nat) : List ℤ :=
  (if 0 < i ∧ delayPos then [shardProg n i] else []) ++
  [shardProg n i] ++ List.replicate (retries i) (shardProg n i) ++
  [shardProg n (i + 1)]

/-- Serial shard segments for shards `i, i+1, …` while `fuel` lasts. -/
def serialShardsAux (n : Nat) (delayPos : Bool) (retries : Nat → Nat) :
    Nat → Nat → List ℤ
  | 0, _ => []
  | fuel + 1, i =>
    serialShardSeg n delayPos retries i ++
    serialShardsAux n delayPos retries fuel (i + 1)

/-- The full progress trace of a SERIAL-mode run: start (line 353, 5),
enrichment, parsing/config lines (lines 358 and 374, 30 and 35), the shard
segments, cleanup (line 436, 95), the optional duplicate-filter line
(line 498, 98), and success (line 501, 100). -/
def serialTrace (o : EnrichOutcome) (n : Nat) (delayPos : Bool)
    (retries : Nat → Nat) (dupFiltered : Bool) : List ℤ :=
  [5] ++ enrichTrace o ++ [30, 35] ++
  serialShardsAux n delayPos retries n 0 ++
  [95] ++ (if dupFiltered then [98] else []) ++ [100]

/-- The full progress trace of a PARALLEL-mode run with
`userRequestDelay = 0`: start and enrichment as in serial, then the
stagger line (line 407, 40), one launch line per shard (line 416, 40), the
dispatch-complete line (line 430, 80), the shard-0 retry lines (line 425,
at the stale `currentProgress` 40), then cleanup, the optional filter
line, and success. -/
def parallelTrace (o : EnrichOutcome) (n : Nat) (retries0 : Nat)
    (dupFiltered : Bool) : List ℤ :=
  [5] ++ enrichTrace o ++ [30, 35] ++
  [40] ++ List.replicate n 40 ++ [80] ++ List.replicate retries0 40 ++
  [95] ++ (if dupFiltered then [98] else []) ++ [100]

/-- A list is a non-decreasing chain with all entries in `[lo, hi]`. -/
def Monot (lo hi : ℤ) (l : List ℤ) : Prop :=
  List.Chain' (· ≤ ·) l ∧ ∀ x ∈ l, lo ≤ x ∧ x ≤ hi

theorem Monot.nil (lo hi : ℤ) : Monot lo hi [] :=
  ⟨List.chain'_nil, by simp⟩

theorem Monot.single (lo hi x : ℤ) (h1 : lo ≤ x) (h2 : x ≤ hi) :
    Monot lo hi [x] :=
  ⟨List.chain'_singleton x, by simpa using ⟨h1, h2⟩⟩

theorem Monot.mono {lo hi lo2 hi2 : ℤ} {l : List ℤ} (h : Monot lo hi l)
    (h1 : lo2 ≤ lo) (h2 : hi ≤ hi2) : Monot lo2 hi2 l := by
  refine ⟨h.1, fun x hx => ?_⟩
  have := h.2 x hx
  omega

theorem Monot.append {lo m hi : ℤ} {l1 l2 : List ℤ}
    (h1 : Monot lo m l1) (h2 : Monot m hi l2)
    (hlo : lo ≤ m) (hhi : m ≤ hi) : Monot lo hi (l1 ++ l2) := by
  refine ⟨List.Chain'.append h1.1 h2.1 ?_, fun x hx => ?_⟩
  · intro x hx y hy
    have hx2 := (h1.2 x (List.mem_of_mem_getLast? hx)).2
    have hy2 := (h2.2 y (List.mem_of_mem_head? hy)).1
    omega
  · rcases List.mem_append.mp hx with h | h
    · have := h1.2 x h; omega
    · have := h2.2 x h; omega

theorem Monot.pair (lo hi a b : ℤ) (h1 : lo ≤ a) (h2 : a ≤ b)
    (h3 : b ≤ hi) : Monot lo hi [a, b] := by
  refine ⟨List.chain'_pair.mpr h2, fun x hx => ?_⟩
  rcases List.mem_cons.mp hx with h | h
  · omega
  · simp only [List.mem_singleton] at h
    omega

theorem Monot.replicate (lo hi x : ℤ) (r : Nat) (h1 : lo ≤ x)
    (h2 : x ≤ hi) : Monot lo hi (List.replicate r x) := by
  induction r with
  | zero => exact Monot.nil lo hi
  | succ k ih =>
    rw [List.replicate_succ]
    constructor
    · rw [List.chain'_cons']
      refine ⟨fun y hy => ?_, ih.1⟩
      have := List.mem_of_mem_head? hy
      rw [List.eq_of_mem_replicate this]
    · intro y hy
      rcases List.mem_cons.mp hy with h | h
      · omega
      · rw [List.eq_of_mem_replicate h]; omega

theorem jsRound_mono {q r : ℚ} (h : q ≤ r) : jsRound q ≤ jsRound r :=
  Int.floor_le_floor (by linarith)

theorem jsRound_nonneg {q : ℚ} (h : 0 ≤ q) : 0 ≤ jsRound q := by
  have : (0 : ℤ) ≤ ⌊q + 1 / 2⌋ := by
    rw [Int.le_floor]
    push_cast
    linarith
  exact this

theorem jsRound_le_50 {q : ℚ} (h : q ≤ 50) : jsRound q ≤ 50 := by
  unfold jsRound
  have : ⌊q + 1 / 2⌋ < 51 := by
    rw [Int.floor_lt]
    push_cast
    linarith
  omega

theorem shardProg_mono (n : Nat) {i j : Nat} (h : i ≤ j) :
    shardProg n i ≤ shardProg n j := by
  unfold shardProg
  have hq : (i : ℚ) / (n : ℚ) * 50 ≤ (j : ℚ) / (n : ℚ) * 50 := by
    rcases Nat.eq_zero_or_pos n with hn | hn
    · simp [hn]
    · have hn2 : (0 : ℚ) < (n : ℚ) := by exact_mod_cast hn
      have hij : (i : ℚ) ≤ (j : ℚ) := by exact_mod_cast h
      gcongr
  have := jsRound_mono hq
  omega

theorem shardProg_lb (n i : Nat) : 40 ≤ shardProg n i := by
  unfold shardProg
  have hq : (0 : ℚ) ≤ (i : ℚ) / (n : ℚ) * 50 := by positivity
  have := jsRound_nonneg hq
  omega

theorem shardProg_ub (n i : Nat) (h : i ≤ n) : shardProg n i ≤ 90 := by
  unfold shardProg
  have hq : (i : ℚ) / (n : ℚ) * 50 ≤ 50 := by
    rcases Nat.eq_zero_or_pos n with hn | hn
    · simp [hn]
    · have hn2 : (0 : ℚ) < (n : ℚ) := by exact_mod_cast hn
      have hin : (i : ℚ) ≤ (n : ℚ) := by exact_mod_cast h
      have hdiv : (i : ℚ) / (n : ℚ) ≤ 1 := by
        rw [div_le_one hn2]; exact hin
      linarith
  have := jsRound_le_50 hq
  omega

theorem serialShardSeg_monot (n : Nat) (delayPos : Bool)
    (retries : Nat → Nat) (i : Nat) (h : i + 1 ≤ n) :
    Monot (shardProg n i) (shardProg n (i + 1))
      (serialShardSeg n delayPos retries i) := by
  have hmono : shardProg n i ≤ shardProg n (i + 1) :=
    shardProg_mono n (Nat.le_succ i)
  unfold serialShardSeg
  refine Monot.append (m := shardProg n i) ?_
    (Monot.single _ _ _ hmono le_rfl) le_rfl hmono
  refine Monot.append (m := shardProg n i) ?_
    (Monot.replicate _ _ _ _ le_rfl le_rfl) le_rfl le_rfl
  refine Monot.append (m := shardProg n i) ?_
    (Monot.single _ _ _ le_rfl le_rfl) le_rfl le_rfl
  by_cases hd : 0 < i ∧ delayPos = true
  · rw [if_pos hd]
    exact Monot.single _ _ _ le_rfl le_rfl
  · rw [if_neg hd]
    exact Monot.nil _ _

theorem serialShardsAux_monot (n : Nat) (delayPos : Bool)
    (retries : Nat → Nat) :
    ∀ fuel i, fuel + i ≤ n →
      Monot (shardProg n i) 90 (serialShardsAux n delayPos retries fuel i) := by
  intro fuel
  induction fuel with
  | zero => intro i _; exact Monot.nil _ _
  | succ k ih =>
    intro i hle
    rw [serialShardsAux]
    refine Monot.append (m := shardProg n (i + 1))
      (serialShardSeg_monot n delayPos retries i (by omega))
      (ih (i + 1) (by omega))
      (shardProg_mono n (Nat.le_succ i))
      (shardProg_ub n (i + 1) (by omega))

theorem enrichTrace_monot (o : EnrichOutcome) : Monot 12 30 (enrichTrace o) := by
  cases o <;>
    refine ⟨by norm_num [enrichTrace, List.chain'_cons], fun x hx => ?_⟩ <;>
    simp only [enrichTrace] at hx <;>
    fin_cases hx <;> omega

/-- C9 counterexample: in PARALLEL mode with a zero inter-shard delay, a
single shard whose first attempt fails produces the progress sequence
`5, 30, 35, 40, 40, 80, 40, 95, 100` — the retry line at the stale 40
follows the dispatch-complete line at 80, so the sequence is not
monotonically non-decreasing. -/
theorem progress_monotone_cex :
    parallelTrace .noMaterials 1 1 false =
      [5, 30, 35, 40, 40, 80, 40, 95, 100] ∧
    ¬ List.Chain' (· ≤ ·) (parallelTrace .noMaterials 1 1 false) := by
  have htr : parallelTrace .noMaterials 1 1 false =
      [5, 30, 35, 40, 40, 80, 40, 95, 100] := by decide
  refine ⟨htr, ?_⟩
  rw [htr]
  simp only [List.chain'_cons, List.chain'_singleton]
  omega

/-- C9 (amended): every progress value passed to `onLog` lies in
`[0, 100]` in both scheduling modes; in SERIAL mode the sequence of
progress values is monotonically non-decreasing over the whole run
(enrichment and retry lines included), but in PARALLEL mode monotonicity
can fail, because retry lines carry the stale 40 after the
dispatch-complete line at 80 (see the counterexample). -/
theorem progress_bounds_and_serial_monotone (o : EnrichOutcome) (n : Nat)
    (hn : 1 ≤ n) (delayPos : Bool) (retries : Nat → Nat) (retries0 : Nat)
    (dupFiltered dupF2 : Bool) :
    (∀ x ∈ serialTrace o n delayPos retries dupFiltered, 0 ≤ x ∧ x ≤ 100) ∧
    List.Chain' (· ≤ ·) (serialTrace o n delayPos retries dupFiltered) ∧
    (∀ x ∈ parallelTrace o n retries0 dupF2, 0 ≤ x ∧ x ≤ 100) := by
  have hser : Monot 0 100 (serialTrace o n delayPos retries dupFiltered) := by
    unfold serialTrace
    refine Monot.append (m := 98) ?_
      (Monot.single 98 100 100 (by omega) (by omega)) (by omega) (by omega)
    refine Monot.append (m := 95) ?_ ?_ (by omega) (by omega)
    · refine Monot.append (m := 90) ?_
        (Monot.single 90 95 95 (by omega) (by omega)) (by omega) (by omega)
      refine Monot.append (m := 40) ?_ ?_ (by omega) (by omega)
      · refine Monot.append (m := 30) ?_
          (Monot.pair 30 40 30 35 (by omega) (by omega) (by omega))
          (by omega) (by omega)
        refine Monot.append (m := 12)
          (Monot.single 0 12 5 (by omega) (by omega))
          ((enrichTrace_monot o).mono (by omega) (by omega))
          (by omega) (by omega)
      · have h40 : shardProg n 0 = 40 := by
          unfold shardProg jsRound
          norm_num
        have hs := serialShardsAux_monot n delayPos retries n 0 (by omega)
        rw [h40] at hs
        exact hs
    · by_cases hd : dupFiltered = true
      · rw [if_pos hd]; exact Monot.single _ _ _ (by omega) (by omega)
      · rw [if_neg hd]; exact Monot.nil _ _
  refine ⟨fun x hx => hser.2 x hx, hser.1, ?_⟩
  unfold parallelTrace
  have hrep : ∀ k : Nat, ∀ x ∈ List.replicate k (40 : ℤ), 0 ≤ x ∧ x ≤ 100 := by
    intro k x hx
    rw [List.eq_of_mem_replicate hx]
    omega
  have hsing : ∀ a : ℤ, 0 ≤ a → a ≤ 100 → ∀ x ∈ [a], 0 ≤ x ∧ x ≤ 100 := by
    intro a h1 h2 x hx
    simp only [List.mem_singleton] at hx
    omega
  refine List.forall_mem_append.mpr
    ⟨?_, hsing 100 (by omega) (by omega)⟩
  refine List.forall_mem_append.mpr ⟨?_, ?_⟩
  · refine List.forall_mem_append.mpr ⟨?_, hsing 95 (by omega) (by omega)⟩
    refine List.forall_mem_append.mpr ⟨?_, hrep retries0⟩
    refine List.forall_mem_append.mpr ⟨?_, hsing 80 (by omega) (by omega)⟩
    refine List.forall_mem_append.mpr ⟨?_, hrep n⟩
    refine List.forall_mem_append.mpr ⟨?_, hsing 40 (by omega) (by omega)⟩
    refine List.forall_mem_append.mpr ⟨?_, ?_⟩
    · refine List.forall_mem_append.mpr
        ⟨hsing 5 (by omega) (by omega), ?_⟩
      intro x hx
      have := (enrichTrace_monot o).2 x hx
      omega
    · intro x hx
      rcases List.mem_cons.mp hx with h | h
      · omega
      · simp only [List.mem_singleton] at h
        omega
  · by_cases hd : dupF2 = true
    · rw [if_pos hd]
      exact hsing 98 (by omega) (by omega)
    · rw [if_neg hd]
      intro x hx
      simp at hx

/-- Witness for `progress_bounds_and_serial_monotone` at a one-shard run
with one retry and no duplicates filtered. -/
theorem progress_bounds_witness :
    (∀ x ∈ serialTrace .skipKeywords 1 false (fun _ => 1) false,
      0 ≤ x ∧ x ≤ 100) ∧
    List.Chain' (· ≤ ·) (serialTrace .skipKeywords 1 false (fun _ => 1) false) ∧
    (∀ x ∈ parallelTrace .skipKeywords 1 1 false, 0 ≤ x ∧ x ≤ 100) :=
  progress_bounds_and_serial_monotone .skipKeywords 1 (by decide) false
    (fun _ => 1) 1 false false

end AceMock
